import Mathlib

/-!
Verification of the control-hook resolution and application engine of the
chaostoolkit experiment orchestrator (`chaoslib/control/__init__.py`).

The Python module manipulates experiments as nested dictionaries.  We embed
the keys the control engine reads: a control declaration carries an optional
`name`, an optional `ref`, an optional `automatic` flag, a `scope` entry that
may be missing, a single string, or a list of strings, and a provider whose
`type` tag we record (`none` models both a missing and an empty provider
mapping).  The `payload` field stands for all remaining dictionary content,
so that two declarations agreeing on the engine-visible keys can still be
distinguished, exactly as two distinct Python dicts can.  `deepcopy` of such
a value is the value itself in this embedding.
-/

namespace ChaosCtl

inductive ScopeVal
  | missing
  | one (s : String)
  | many (l : List String)
deriving DecidableEq

structure Ctrl where
  name : Option String := none
  ref : Option String := none
  automatic : Option Bool := none
  scope : ScopeVal := ScopeVal.missing
  provider : Option String := none
  payload : Nat := 0
deriving DecidableEq

structure Activity where
  controls : List Ctrl := []
  payload : Nat := 0
deriving DecidableEq

structure Hypothesis where
  probes : List Activity := []
  controls : List Ctrl := []
deriving DecidableEq

/-- The keys of an experiment document read by the control engine.  A missing
`steady-state-hypothesis` behaves as an empty one (`.get(..., {})` in the
source), so both are modelled by the default value. -/
structure Experiment where
  controls : List Ctrl := []
  hypothesis : Hypothesis := {}
  method : List Activity := []
  rollbacks : List Activity := []
deriving DecidableEq

/-- A traversal node passed as `context`: only its `"controls"` key is read
(and, in the merge path, written).  A missing key and an empty list behave
identically in every code path, so both are modelled by `[]`. -/
structure Ctx where
  controls : List Ctrl := []
  payload : Nat := 0
deriving DecidableEq

/-- `control.get("automatic", True)`. -/
def isAutomatic (c : Ctrl) : Bool := c.automatic.getD true

/-- `get_all_activities`: hypothesis probes, then method, then rollbacks. -/
def get_all_activities (e : Experiment) : List Activity :=
  e.hypothesis.probes ++ e.method ++ e.rollbacks

/-- `get_controls`: top-level controls, hypothesis controls, then the
controls of every activity in `get_all_activities` order. -/
def get_controls (e : Experiment) : List Ctrl :=
  e.controls ++ e.hypothesis.controls ++
    ((get_all_activities e).map Activity.controls).flatten

/-- The inner loop of `get_context_controls` for a local control without
`ref`: walk the top-level list, breaking at the first control whose `name`
equals the local's `name` (`None == None` breaks as well), and collect a
copy of every automatic control seen before the break. -/
def inheritScan (c : Ctrl) : List Ctrl → List Ctrl
  | [] => []
  | tc :: rest =>
    if tc.name = c.name then []
    else if isAutomatic tc then tc :: inheritScan c rest
    else inheritScan c rest

/-- The inner loop of `get_context_controls` for a local control carrying
`ref = r`: walk the top-level list and collect a copy of the first control
whose name is `r`, breaking there; nothing is collected when no name
matches.  (The source reads `top_level_control["name"]` directly, which
raises `KeyError` on a nameless top-level control; the embedding treats a
nameless control as a non-match, and theorems touching this path quantify
over named top-level controls.) -/
def refScan (r : String) : List Ctrl → List Ctrl
  | [] => []
  | tc :: rest => if tc.name = some r then [tc] else refScan r rest

/-- What one local entry appends to the shared list. -/
def localContribution (tls : List Ctrl) (c : Ctrl) : List Ctrl :=
  match c.ref with
  | some r => refScan r tls
  | none => inheritScan c tls

/-- `get_context_controls(experiment, context)`.

The source binds `controls = context.get("controls", [])` — an alias of the
context's own list — iterates over `controls.copy()` and appends to the
live `controls`, finally returning it.  The embedding therefore returns
both the result list and the context as left behind by the call: when the
local list is non-empty the returned list is the context's list grown by
each local entry's contribution, and the context now holds that grown
list. -/
def get_context_controls (exp : Experiment) (ctx : Ctx) : List Ctrl × Ctx :=
  let tls := exp.controls
  let cs := ctx.controls
  if cs = [] ∧ tls = [] then ([], ctx)
  else if cs = [] then (tls.filter isAutomatic, ctx)
  else
    let grown := cs ++ (cs.map (localContribution tls)).flatten
    (grown, { ctx with controls := grown })

/-!
`apply_controls` walks the effective controls.  A control provider's call
(`apply_python_control`) can return normally, raise the distinguished
`InterruptExecution` signal, or raise any other exception; an abstract
`behavior` function supplies that outcome per control.  Each performed
provider call is recorded as an `Invocation` carrying the level tag the
call received, and the loop result says whether `InterruptExecution`
escaped to the caller.
-/

inductive PyOutcome
  | ok
  | interrupt
  | error
deriving DecidableEq

structure Invocation where
  levelTag : String
  ctrl : Ctrl
deriving DecidableEq

/-- Truthiness of `control.get("scope")`: `None`, `""` and `[]` are falsy. -/
def scopeTruthy : ScopeVal → Bool
  | ScopeVal.missing => false
  | ScopeVal.one s => !(s = "")
  | ScopeVal.many l => !(l = [])

/-- `if not isinstance(target_scope, list): target_scope = [target_scope]`
(never reached with a missing scope: the truthiness guard fired first). -/
def scopeNames : ScopeVal → List String
  | ScopeVal.missing => []
  | ScopeVal.one s => [s]
  | ScopeVal.many l => l

/-- A control reaches the provider call for `scope` exactly when its scope
entry is truthy, the listified scope contains `scope`, and the provider's
type tag is `"python"` (any other provider type is silently skipped by the
`if provider_type == "python"` guard). -/
def invokable (scope : String) (c : Ctrl) : Bool :=
  scopeTruthy c.scope && (scopeNames c.scope).contains scope &&
    c.provider = some "python"

/-- The loop of `apply_controls`.  The source rebinds the *loop-carried*
variable `level` (`level = "{}-{}".format(level, scope)`) just before each
python provider call, so the tag passed to a call is the `level` left by all
previous python calls with `"-" ++ scope` appended; the rebinding survives
into later iterations.  `InterruptExecution` is re-raised, ending the loop;
every other exception is caught and the loop continues. -/
def apply_loop (behavior : Ctrl → PyOutcome) (scope : String) :
    List Ctrl → String → List Invocation × Bool
  | [], _ => ([], false)
  | c :: rest, level =>
    if invokable scope c then
      let newLevel := level ++ "-" ++ scope
      match behavior c with
      | PyOutcome.interrupt => ([⟨newLevel, c⟩], true)
      | _ =>
        let r := apply_loop behavior scope rest newLevel
        (⟨newLevel, c⟩ :: r.1, r.2)
    else
      apply_loop behavior scope rest level

structure ApplyResult where
  invoked : List Invocation
  interrupted : Bool
  ctxAfter : Ctx
deriving DecidableEq

/-- `apply_controls(level, experiment, context, scope, ...)`: resolve the
effective controls through `get_context_controls` (which may grow the
context's own list — the returned `ctxAfter` is the context as left behind)
and run the loop over them. -/
def apply_controls (behavior : Ctrl → PyOutcome) (level : String)
    (exp : Experiment) (ctx : Ctx) (scope : String) : ApplyResult :=
  let rc := get_context_controls exp ctx
  let r := apply_loop behavior scope rc.1 level
  { invoked := r.1, interrupted := r.2, ctxAfter := rc.2 }

/-!
The `controls` context manager builds a `Control`, calls `begin` (which
applies the `"pre"` scope), runs the wrapped body, and calls `end` (which
applies the `"post"` scope) in a `finally` block.  `apply_controls` lets
only `InterruptExecution` escape; the body may raise anything, abstracted
as a boolean.  Python's `finally` semantics: the `end` call always runs,
and an exception it raises replaces the in-flight one.
-/

inductive CMError
  | preInterrupt
  | bodyError
  | postInterrupt
deriving DecidableEq

structure CMOutcome where
  preInv : List Invocation
  bodyRan : Bool
  postInv : List Invocation
  err : Option CMError
  finalCtx : Ctx
deriving DecidableEq

/-- The `controls` context manager wrapping a body.  `c.begin` applies the
pre-scope controls; the body runs only when `begin` returned normally; the
`finally` block always calls `c.end`, which resolves the controls *again*
against the context as `begin` left it and applies the post scope. -/
def controls_cm (behavior : Ctrl → PyOutcome) (level : String)
    (exp : Experiment) (ctx : Ctx) (bodyRaises : Bool) : CMOutcome :=
  let pre := apply_controls behavior level exp ctx "pre"
  let post := apply_controls behavior level exp pre.ctxAfter "post"
  if pre.interrupted then
    { preInv := pre.invoked, bodyRan := false, postInv := post.invoked,
      err := some (if post.interrupted then CMError.postInterrupt
                   else CMError.preInterrupt),
      finalCtx := post.ctxAfter }
  else
    { preInv := pre.invoked, bodyRan := true, postInv := post.invoked,
      err := if post.interrupted then some CMError.postInterrupt
             else if bodyRaises then some CMError.bodyError else none,
      finalCtx := post.ctxAfter }

/-!
`validate_controls` and the once-per-name initialization / cleanup.
-/

/-- The outcomes of the `ref`-checking part of `validate_controls`:
`references = [c["name"] for c in get_controls(experiment) if "ref" not in c]`
raises `KeyError` when a non-ref control lacks a name (the comprehension
runs before any ref is checked); otherwise the first control whose `ref` is
not among those names raises `InvalidControl`.  The trailing loop delegates
python-provider checks to `validate_python_control`, an external collaborator
that never raises `InvalidControl`, so it is outside this model. -/
inductive ValidateOutcome
  | ok
  | invalidControl
  | keyErr
deriving DecidableEq

def validate_controls (e : Experiment) : ValidateOutcome :=
  let cs := get_controls e
  if cs.any (fun c => c.ref = none && c.name = none) then ValidateOutcome.keyErr
  else
    let references := (cs.filter (fun c => c.ref = none)).filterMap Ctrl.name
    if cs.any (fun c =>
        match c.ref with
        | some r => !(references.contains r)
        | none => false) then ValidateOutcome.invalidControl
    else ValidateOutcome.ok

/-- The shared loop of `initialize_controls`: skip a control whose name is
falsy (`None` or `""`) or already seen, record the name, and call the
provider initialization only for a `"python"` provider (`provider and
provider["type"] == "python"`; a missing or empty provider mapping is
falsy).  The returned list is the sequence of provider calls performed, in
order. -/
def initialize_seen : List Ctrl → List String → List Ctrl
  | [], _ => []
  | c :: rest, seen =>
    match c.name with
    | none => initialize_seen rest seen
    | some n =>
      if n = "" || seen.contains n then initialize_seen rest seen
      else if c.provider = some "python" then c :: initialize_seen rest (n :: seen)
      else initialize_seen rest (n :: seen)

/-- `initialize_controls(experiment, ...)` as the sequence of
`initialize_control` provider calls it performs. -/
def initialize_controls (e : Experiment) : List Ctrl :=
  initialize_seen (get_controls e) []

/-- The loop of `cleanup_controls`, identical in structure to
`initialize_controls` but calling `cleanup_control`. -/
def cleanup_seen : List Ctrl → List String → List Ctrl
  | [], _ => []
  | c :: rest, seen =>
    match c.name with
    | none => cleanup_seen rest seen
    | some n =>
      if n = "" || seen.contains n then cleanup_seen rest seen
      else if c.provider = some "python" then c :: cleanup_seen rest (n :: seen)
      else cleanup_seen rest (n :: seen)

/-- `cleanup_controls(experiment)` as the sequence of `cleanup_control`
provider calls it performs. -/
def cleanup_controls (e : Experiment) : List Ctrl :=
  cleanup_seen (get_controls e) []

/-!
Concrete experiment fragments used to evaluate the code on explicit inputs.
-/

def topCtrl : Ctrl := { name := some "top" }

def aCtrl : Ctrl := { name := some "a" }

def bCtrl : Ctrl := { name := some "b" }

def xCtrl : Ctrl := { name := some "x" }

/-- A top-level control sharing the name of the local `aCtrl` but carrying
different remaining content. -/
def aTop : Ctrl := { name := some "a", payload := 1 }

def refCtrl : Ctrl := { ref := some "top" }

def pyPre1 : Ctrl :=
  { name := some "p1", scope := ScopeVal.one "pre", provider := some "python" }

def pyPre2 : Ctrl :=
  { name := some "p2", scope := ScopeVal.one "pre", provider := some "python" }

def pyBoth : Ctrl :=
  { name := some "pb", scope := ScopeVal.many ["pre", "post"],
    provider := some "python" }

/-- A python control whose declaration omits the `scope` key. -/
def noScopeCtrl : Ctrl := { name := some "ns", provider := some "python" }

def ctxEmpty : Ctx := {}

def expTwoPy : Experiment := { controls := [pyPre1, pyPre2] }

def expOneBoth : Experiment := { controls := [pyBoth] }

def behOk : Ctrl → PyOutcome := fun _ => PyOutcome.ok

def behInterruptP1 : Ctrl → PyOutcome :=
  fun c => if c.name = some "p1" then PyOutcome.interrupt else PyOutcome.ok

def behErrorP1 : Ctrl → PyOutcome :=
  fun c => if c.name = some "p1" then PyOutcome.error else PyOutcome.ok

def behInterruptAll : Ctrl → PyOutcome := fun _ => PyOutcome.interrupt

/-- An experiment whose only non-ref control named `"x"` lives on an
activity, while another activity control `ref`s it; no top-level controls
exist. -/
def expActivityRef : Experiment :=
  { controls := [],
    method := [ { controls := [xCtrl] },
                { controls := [{ ref := some "x" }] } ] }

/-- An experiment declaring a ref that matches no declared control name. -/
def expDanglingRef : Experiment :=
  { controls := [{ ref := some "zzz" }, xCtrl] }

/-- Two same-named declarations, one top-level and one on an activity. -/
def dupFirst : Ctrl := { name := some "n", provider := some "python", payload := 1 }

def dupSecond : Ctrl := { name := some "n", provider := some "python", payload := 2 }

def expDupNames : Experiment :=
  { controls := [dupFirst], method := [{ controls := [dupSecond] }] }

/-- A top-level control explicitly opting out of automatic inheritance. -/
def manualCtrl : Ctrl := { name := some "na", automatic := some false }

def expManual : Experiment := { controls := [topCtrl, manualCtrl] }

/-!
Helper lemmas about the resolution scans.
-/

theorem get_context_controls_empty_locals (exp : Experiment) (ctx : Ctx)
    (h : ctx.controls = []) :
    (get_context_controls exp ctx).1 = exp.controls.filter isAutomatic := by
  by_cases ht : exp.controls = [] <;> simp [get_context_controls, h, ht]

theorem get_context_controls_cons_locals (exp : Experiment) (ctx : Ctx)
    (h : ctx.controls ≠ []) :
    (get_context_controls exp ctx).1 =
      ctx.controls ++
        (ctx.controls.map (localContribution exp.controls)).flatten := by
  simp [get_context_controls, h]

theorem mem_refScan (r : String) (t : Ctrl) (tls : List Ctrl)
    (h : t ∈ refScan r tls) : t.name = some r ∧ t ∈ tls := by
  induction tls with
  | nil => simp [refScan] at h
  | cons tc rest ih =>
    by_cases hn : tc.name = some r
    · simp only [refScan, if_pos hn, List.mem_singleton] at h
      subst h
      exact ⟨hn, by simp⟩
    · simp only [refScan, if_neg hn] at h
      obtain ⟨h1, h2⟩ := ih h
      exact ⟨h1, by simp [h2]⟩

theorem mem_inheritScan (c t : Ctrl) (tls : List Ctrl)
    (h : t ∈ inheritScan c tls) : isAutomatic t = true ∧ t ∈ tls := by
  induction tls with
  | nil => simp [inheritScan] at h
  | cons tc rest ih =>
    by_cases hn : tc.name = c.name
    · simp [inheritScan, if_pos hn] at h
    · by_cases ha : isAutomatic tc
      · simp only [inheritScan, if_neg hn, if_pos ha, List.mem_cons] at h
        rcases h with h | h
        · subst h; exact ⟨ha, by simp⟩
        · obtain ⟨h1, h2⟩ := ih h
          exact ⟨h1, by simp [h2]⟩
      · simp only [inheritScan, if_neg hn, if_neg ha] at h
        obtain ⟨h1, h2⟩ := ih h
        exact ⟨h1, by simp [h2]⟩

theorem refScan_find (r : String) (tls : List Ctrl) :
    refScan r tls = (tls.find? (fun tc => decide (tc.name = some r))).toList := by
  induction tls with
  | nil => simp [refScan]
  | cons tc rest ih =>
    by_cases hn : tc.name = some r
    · simp [refScan, hn, List.find?_cons]
    · simp [refScan, hn, List.find?_cons, ih]

theorem apply_loop_invokable (behavior : Ctrl → PyOutcome) (scope : String)
    (cs : List Ctrl) (level : String) :
    ∀ inv ∈ (apply_loop behavior scope cs level).1,
      invokable scope inv.ctrl = true := by
  induction cs generalizing level with
  | nil => simp [apply_loop]
  | cons c rest ih =>
    intro inv hm
    by_cases hc : invokable scope c
    · cases hb : behavior c with
      | interrupt =>
        simp only [apply_loop, if_pos hc, hb, List.mem_singleton] at hm
        subst hm
        exact hc
      | ok =>
        simp only [apply_loop, if_pos hc, hb, List.mem_cons] at hm
        rcases hm with hm | hm
        · subst hm; exact hc
        · exact ih (level ++ "-" ++ scope) inv hm
      | error =>
        simp only [apply_loop, if_pos hc, hb, List.mem_cons] at hm
        rcases hm with hm | hm
        · subst hm; exact hc
        · exact ih (level ++ "-" ++ scope) inv hm
    · simp only [apply_loop, if_neg hc] at hm
      exact ih level inv hm

/-- C1: with top-level controls `[top]` and local controls `[a, b]` the code
returns `[a, b, top, top]` — the inherited automatic control is appended
once per local entry, not once overall; and with top-level `[a', x]` and
local `[a]` it returns `[a]` — the name match on `a'` breaks the scan, so
the automatic control `x` that shares no local name is never inherited.
Both outcomes contradict the claimed "exactly one copy of each top-level
automatic control whose name does not match any locally declared control
name, in top-level order". -/
theorem get_context_controls_inherited_duplication :
    (get_context_controls { controls := [topCtrl] }
        { controls := [aCtrl, bCtrl] }).1 = [aCtrl, bCtrl, topCtrl, topCtrl] ∧
    (get_context_controls { controls := [aTop, xCtrl] }
        { controls := [aCtrl] }).1 = [aCtrl] := by
  constructor <;> rfl

/-- C2: `get_context_controls` appends the inherited copies into the
context's own `controls` list, so the call mutates its input, and a second
call on the context it left behind returns a strictly longer list:
`[a, top]` the first time, `[a, top, top]` the second. -/
theorem get_context_controls_mutates_context :
    (get_context_controls { controls := [topCtrl] } { controls := [aCtrl] }).1
      = [aCtrl, topCtrl] ∧
    (get_context_controls { controls := [topCtrl] }
        { controls := [aCtrl] }).2.controls ≠ [aCtrl] ∧
    (get_context_controls { controls := [topCtrl] }
        (get_context_controls { controls := [topCtrl] }
          { controls := [aCtrl] }).2).1 = [aCtrl, topCtrl, topCtrl] := by
  refine ⟨rfl, ?_, rfl⟩
  decide

/-- C4 counterexample: with top-level controls `[top]` and the single local
entry `{ref: "top"}`, the list returned by `get_context_controls` still
contains the bare ref entry itself (the resolved copy is appended after it),
contradicting the claim that the result includes the resolved control "and
not the bare ref entry itself". -/
theorem get_context_controls_keeps_ref_entry :
    refCtrl ∈ (get_context_controls { controls := [topCtrl] }
      { controls := [refCtrl] }).1 := by
  decide

/-- C4 as amended, for experiments whose top-level controls all carry a
name (the source raises `KeyError` at `top_level_control["name"]` on a
nameless one while scanning for a ref, so the embedding and the source
agree exactly on this domain): a local entry carrying `ref = r` stays in
the returned list; a copy of the first top-level control named `r` is
additionally appended when one exists; when no top-level control is named
`r`, the appended tail of the result is exactly what the other local
entries generate — at any position in the local list, the ref entry
contributes nothing beyond its own presence; and a ref entry whose
declaration has no `scope` key is never invoked by `apply_controls`, for
any behavior, level and requested scope. -/
theorem get_context_controls_ref_resolution (exp : Experiment) (ctx : Ctx)
    (c : Ctrl) (r : String) (_hnames : ∀ t ∈ exp.controls, t.name ≠ none)
    (hc : c ∈ ctx.controls) (hr : c.ref = some r) :
    c ∈ (get_context_controls exp ctx).1 ∧
    (∀ t, exp.controls.find? (fun tc => decide (tc.name = some r)) = some t →
      t ∈ (get_context_controls exp ctx).1) ∧
    (∀ l1 l2, ctx.controls = l1 ++ c :: l2 →
      exp.controls.find? (fun tc => decide (tc.name = some r)) = none →
      (get_context_controls exp ctx).1
        = ctx.controls ++
            ((l1 ++ l2).map (localContribution exp.controls)).flatten) ∧
    (c.scope = ScopeVal.missing →
      ∀ behavior level scope,
        ∀ inv ∈ (apply_controls behavior level exp ctx scope).invoked,
          inv.ctrl ≠ c) := by
  have hne : ctx.controls ≠ [] := by
    intro h
    rw [h] at hc
    simp at hc
  refine ⟨?_, ?_, ?_, ?_⟩
  · rw [get_context_controls_cons_locals exp ctx hne]
    exact List.mem_append_left _ hc
  · intro t ht
    rw [get_context_controls_cons_locals exp ctx hne]
    refine List.mem_append_right _ ?_
    rw [List.mem_flatten]
    refine ⟨localContribution exp.controls c, List.mem_map_of_mem _ hc, ?_⟩
    simp only [localContribution, hr]
    rw [refScan_find, ht]
    simp
  · intro l1 l2 hsplit hnone
    have hcontrib : localContribution exp.controls c = [] := by
      simp only [localContribution, hr]
      rw [refScan_find, hnone]
      rfl
    rw [get_context_controls_cons_locals exp ctx hne, hsplit]
    simp [List.map_append, List.flatten_append, hcontrib]
  · intro hscope behavior level scope inv hm heq
    have hinv : invokable scope inv.ctrl = true :=
      apply_loop_invokable behavior scope
        (get_context_controls exp ctx).1 level inv hm
    rw [heq, invokable, hscope] at hinv
    simp [scopeTruthy] at hinv

/-- C4 witness: instantiating the amended statement on concrete inputs —
the resolved copy is appended, and with no matching top-level name the ref
entry sitting between two other locals adds nothing to the appended
tail. -/
theorem get_context_controls_ref_resolution_witness :
    (∀ t ∈ ({ controls := [topCtrl] } : Experiment).controls,
      t.name ≠ none) ∧
    refCtrl ∈ ({ controls := [refCtrl] } : Ctx).controls ∧
    refCtrl.ref = some "top" ∧
    topCtrl ∈ (get_context_controls { controls := [topCtrl] }
      { controls := [refCtrl] }).1 ∧
    (get_context_controls { controls := [xCtrl] }
        { controls := [aCtrl, refCtrl, bCtrl] }).1
      = [aCtrl, refCtrl, bCtrl] ++
          (([aCtrl] ++ [bCtrl]).map (localContribution [xCtrl])).flatten :=
  ⟨by decide, by decide, rfl,
    (get_context_controls_ref_resolution { controls := [topCtrl] }
        { controls := [refCtrl] } refCtrl "top" (by decide) (by decide)
        rfl).2.1 topCtrl (by decide),
    (get_context_controls_ref_resolution { controls := [xCtrl] }
        { controls := [aCtrl, refCtrl, bCtrl] } refCtrl "top" (by decide)
        (by decide) rfl).2.2.1 [aCtrl] [bCtrl] rfl (by decide)⟩

/-- C5: for a node whose local controls list is empty, the resolved list is
exactly the automatic top-level controls (a missing `automatic` key acting
as `true`); a top-level control explicitly flagged `automatic: false` never
appears in the resolved list of any node that neither `ref`s its name nor
declares a local control of that name; and with no controls anywhere the
result is empty. -/
theorem get_context_controls_automatic_defaults (exp : Experiment) (ctx : Ctx) :
    (ctx.controls = [] →
      (get_context_controls exp ctx).1 = exp.controls.filter isAutomatic) ∧
    (∀ t ∈ exp.controls, ∀ n, t.name = some n → t.automatic = some false →
      (∀ c ∈ ctx.controls, c.ref ≠ some n ∧ c.name ≠ some n) →
      t ∉ (get_context_controls exp ctx).1) ∧
    (exp.controls = [] → ctx.controls = [] →
      (get_context_controls exp ctx).1 = []) := by
  refine ⟨fun h => get_context_controls_empty_locals exp ctx h, ?_, ?_⟩
  · intro t _ n hn hauto hlocal hmem
    have htauto : isAutomatic t = false := by
      simp [isAutomatic, hauto]
    by_cases hcs : ctx.controls = []
    · rw [get_context_controls_empty_locals exp ctx hcs] at hmem
      have := List.of_mem_filter hmem
      rw [htauto] at this
      exact Bool.false_ne_true this
    · rw [get_context_controls_cons_locals exp ctx hcs] at hmem
      rcases List.mem_append.mp hmem with hmem | hmem
      · exact (hlocal t hmem).2 hn
      · rw [List.mem_flatten] at hmem
        obtain ⟨l, hl, htl⟩ := hmem
        rw [List.mem_map] at hl
        obtain ⟨c, hcmem, hceq⟩ := hl
        subst hceq
        rcases hcr : c.ref with _ | r
        · simp only [localContribution, hcr] at htl
          have := (mem_inheritScan c t exp.controls htl).1
          rw [htauto] at this
          exact Bool.false_ne_true this
        · simp only [localContribution, hcr] at htl
          have hname := (mem_refScan r t exp.controls htl).1
          have hrn : r = n := Option.some.inj (hname.symm.trans hn)
          exact (hlocal c hcmem).1 (by rw [hcr, hrn])
  · intro hexp hctx
    rw [get_context_controls_empty_locals exp ctx hctx, hexp]
    rfl

/-- C5 witness: a node without local controls inherits the automatic
top-level control and not the `automatic: false` one. -/
theorem get_context_controls_automatic_defaults_witness :
    ctxEmpty.controls = [] ∧
    (get_context_controls expManual ctxEmpty).1 = [topCtrl] :=
  ⟨rfl, (get_context_controls_automatic_defaults expManual ctxEmpty).1 rfl⟩

/-!
Lemmas about the `apply_controls` loop.
-/

theorem apply_loop_no_interrupt (behavior : Ctrl → PyOutcome) (scope : String)
    (cs : List Ctrl) (level : String)
    (h : ∀ c ∈ cs, invokable scope c = true → behavior c ≠ PyOutcome.interrupt) :
    (apply_loop behavior scope cs level).2 = false ∧
    (apply_loop behavior scope cs level).1.map Invocation.ctrl
      = cs.filter (invokable scope) := by
  induction cs generalizing level with
  | nil => simp [apply_loop]
  | cons c rest ih =>
    by_cases hc : invokable scope c
    · have hrec := ih (level ++ "-" ++ scope) (fun d hd => h d (by simp [hd]))
      cases hb : behavior c with
      | interrupt => exact absurd hb (h c (by simp) hc)
      | ok =>
        simp only [apply_loop, if_pos hc, hb, List.map_cons,
          List.filter_cons_of_pos hc]
        exact ⟨hrec.1, by rw [hrec.2]⟩
      | error =>
        simp only [apply_loop, if_pos hc, hb, List.map_cons,
          List.filter_cons_of_pos hc]
        exact ⟨hrec.1, by rw [hrec.2]⟩
    · have hrec := ih level (fun d hd => h d (by simp [hd]))
      simp only [apply_loop, if_neg hc,
        List.filter_cons_of_neg (by simpa using hc)]
      exact hrec

theorem apply_loop_first_interrupt (behavior : Ctrl → PyOutcome)
    (scope : String) (l1 : List Ctrl) (c : Ctrl) (l2 : List Ctrl)
    (level : String) (hc : invokable scope c = true)
    (hb : behavior c = PyOutcome.interrupt)
    (h1 : ∀ d ∈ l1, invokable scope d = true → behavior d ≠ PyOutcome.interrupt) :
    (apply_loop behavior scope (l1 ++ c :: l2) level).2 = true ∧
    (apply_loop behavior scope (l1 ++ c :: l2) level).1.map Invocation.ctrl
      = l1.filter (invokable scope) ++ [c] := by
  induction l1 generalizing level with
  | nil => simp [apply_loop, hc, hb]
  | cons d rest ih =>
    by_cases hd : invokable scope d
    · have hrec := ih (level ++ "-" ++ scope) (fun e he => h1 e (by simp [he]))
      cases hbd : behavior d with
      | interrupt => exact absurd hbd (h1 d (by simp) hd)
      | ok =>
        simp only [List.cons_append, apply_loop, if_pos hd, hbd,
          List.map_cons, List.filter_cons_of_pos hd]
        exact ⟨hrec.1, by simp only [List.append_eq]; rw [hrec.2]⟩
      | error =>
        simp only [List.cons_append, apply_loop, if_pos hd, hbd,
          List.map_cons, List.filter_cons_of_pos hd]
        exact ⟨hrec.1, by simp only [List.append_eq]; rw [hrec.2]⟩
    · have hrec := ih level (fun e he => h1 e (by simp [he]))
      simp only [List.cons_append, apply_loop, if_neg hd,
        List.filter_cons_of_neg (by simpa using hd)]
      exact hrec


/-- C3: during one `apply_controls` call, a control whose provider raises
the distinguished `InterruptExecution` signal makes the call end with the
signal escaping and the controls after it never invoked — the recorded
invocations stop exactly at the interrupting control; when no invoked
control raises the signal, the call returns normally and every
scope-matching python control of the effective sequence is invoked, even
though some of their providers raised ordinary exceptions. -/
theorem apply_controls_interrupt_isolation (behavior : Ctrl → PyOutcome)
    (level scope : String) (exp : Experiment) (ctx : Ctx) :
    (∀ l1 c l2, (get_context_controls exp ctx).1 = l1 ++ c :: l2 →
      invokable scope c = true → behavior c = PyOutcome.interrupt →
      (∀ d ∈ l1, invokable scope d = true → behavior d ≠ PyOutcome.interrupt) →
      (apply_controls behavior level exp ctx scope).interrupted = true ∧
      (apply_controls behavior level exp ctx scope).invoked.map Invocation.ctrl
        = l1.filter (invokable scope) ++ [c]) ∧
    ((∀ c ∈ (get_context_controls exp ctx).1, invokable scope c = true →
        behavior c ≠ PyOutcome.interrupt) →
      (apply_controls behavior level exp ctx scope).interrupted = false ∧
      (apply_controls behavior level exp ctx scope).invoked.map Invocation.ctrl
        = (get_context_controls exp ctx).1.filter (invokable scope)) := by
  constructor
  · intro l1 c l2 hsplit hc hb h1
    have h2 := apply_loop_first_interrupt behavior scope l1 c l2 level hc hb h1
    rw [← hsplit] at h2
    exact ⟨h2.1, h2.2⟩
  · intro h
    have h2 := apply_loop_no_interrupt behavior scope
      (get_context_controls exp ctx).1 level h
    exact ⟨h2.1, h2.2⟩

/-- C3 witness: with two pre-scope python controls, an interrupting first
control yields an escaped signal with only itself invoked, while a first
control raising an ordinary error leaves both controls invoked and the call
returning normally. -/
theorem apply_controls_interrupt_isolation_witness :
    ((apply_controls behInterruptP1 "experiment" expTwoPy ctxEmpty
        "pre").interrupted = true ∧
      (apply_controls behInterruptP1 "experiment" expTwoPy ctxEmpty
        "pre").invoked.map Invocation.ctrl = [pyPre1]) ∧
    ((apply_controls behErrorP1 "experiment" expTwoPy ctxEmpty
        "pre").interrupted = false ∧
      (apply_controls behErrorP1 "experiment" expTwoPy ctxEmpty
        "pre").invoked.map Invocation.ctrl = [pyPre1, pyPre2]) :=
  ⟨(apply_controls_interrupt_isolation behInterruptP1 "experiment" "pre"
      expTwoPy ctxEmpty).1 [] pyPre1 [pyPre2] (by decide) (by decide)
      (by decide) (by decide),
   (apply_controls_interrupt_isolation behErrorP1 "experiment" "pre"
      expTwoPy ctxEmpty).2 (by decide)⟩

/-- C6: the loop of `apply_controls` rebinds its `level` variable before
each python provider call, so with two pre-scope python controls at level
`"experiment"` the first provider receives the tag `"experiment-pre"` but
the second receives `"experiment-pre-pre"` — not the claimed
`"<level>-<scope>"` built from the original level for every invocation. -/
theorem apply_controls_level_tag_drift :
    (apply_controls behOk "experiment" expTwoPy ctxEmpty "pre").invoked
      = [⟨"experiment-pre", pyPre1⟩, ⟨"experiment-pre-pre", pyPre2⟩] := by
  decide

/-- C9: a control whose declaration omits the `scope` key, or whose scope
entry is an empty string or an empty list, is never invoked by
`apply_controls` — at any level, for any requested scope, any behavior and
any experiment or node, no recorded invocation is of that control. -/
theorem apply_controls_skips_scopeless (behavior : Ctrl → PyOutcome)
    (level scope : String) (exp : Experiment) (ctx : Ctx) (c : Ctrl)
    (h : scopeTruthy c.scope = false) :
    ∀ inv ∈ (apply_controls behavior level exp ctx scope).invoked,
      inv.ctrl ≠ c := by
  intro inv hm heq
  have hinv : invokable scope inv.ctrl = true :=
    apply_loop_invokable behavior scope
      (get_context_controls exp ctx).1 level inv hm
  rw [heq, invokable, h] at hinv
  simp at hinv

/-- C9 witness: the scopeless python control, present in the node-effective
set, is not among the invocations. -/
theorem apply_controls_skips_scopeless_witness :
    scopeTruthy noScopeCtrl.scope = false ∧
    ∀ inv ∈ (apply_controls behOk "experiment"
        { controls := [noScopeCtrl, pyPre1] } ctxEmpty "pre").invoked,
      inv.ctrl ≠ noScopeCtrl :=
  ⟨rfl, apply_controls_skips_scopeless behOk "experiment" "pre"
    { controls := [noScopeCtrl, pyPre1] } ctxEmpty noScopeCtrl rfl⟩

/-- C10: whenever the pre-scope application performed by `begin` inside the
`controls` context manager ends in the distinguished interrupt, the
post-scope controls are still applied in the `finally` block — the recorded
post invocations are exactly those of a full `apply_controls` post call on
the context as `begin` left it — and an exception still propagates to the
caller afterwards, the wrapped body never having run. -/
theorem controls_cm_post_runs_after_pre_interrupt (behavior : Ctrl → PyOutcome)
    (level : String) (exp : Experiment) (ctx : Ctx) (bodyRaises : Bool)
    (h : (apply_controls behavior level exp ctx "pre").interrupted = true) :
    (controls_cm behavior level exp ctx bodyRaises).postInv
      = (apply_controls behavior level exp
          (apply_controls behavior level exp ctx "pre").ctxAfter
          "post").invoked ∧
    (controls_cm behavior level exp ctx bodyRaises).err.isSome = true ∧
    (controls_cm behavior level exp ctx bodyRaises).bodyRan = false := by
  simp [controls_cm, h]

/-- C10 witness: a control interrupting in both scopes still has its post
hook applied, and the interrupt escapes the context manager. -/
theorem controls_cm_post_runs_after_pre_interrupt_witness :
    (apply_controls behInterruptAll "experiment" expOneBoth ctxEmpty
        "pre").interrupted = true ∧
    ((controls_cm behInterruptAll "experiment" expOneBoth ctxEmpty
        false).postInv
      = (apply_controls behInterruptAll "experiment" expOneBoth
          (apply_controls behInterruptAll "experiment" expOneBoth ctxEmpty
            "pre").ctxAfter "post").invoked ∧
      (controls_cm behInterruptAll "experiment" expOneBoth ctxEmpty
        false).err.isSome = true ∧
      (controls_cm behInterruptAll "experiment" expOneBoth ctxEmpty
        false).bodyRan = false) :=
  ⟨by decide, controls_cm_post_runs_after_pre_interrupt behInterruptAll
    "experiment" expOneBoth ctxEmpty false (by decide)⟩

/-!
Lemmas about the once-per-name dedup loop shared by `initialize_controls`
and `cleanup_controls`.
-/

theorem cleanup_seen_eq (cs : List Ctrl) (seen : List String) :
    cleanup_seen cs seen = initialize_seen cs seen := by
  induction cs generalizing seen with
  | nil => rfl
  | cons c rest ih =>
    cases hname : c.name with
    | none => simp [cleanup_seen, initialize_seen, hname, ih]
    | some m => simp only [cleanup_seen, initialize_seen, hname, ih]

theorem initialize_seen_fresh (cs : List Ctrl) (seen : List String)
    (n : String) (hn : seen.contains n = true) :
    ∀ c ∈ initialize_seen cs seen, c.name ≠ some n := by
  induction cs generalizing seen with
  | nil => simp [initialize_seen]
  | cons c rest ih =>
    intro d hd
    cases hname : c.name with
    | none =>
      simp only [initialize_seen, hname] at hd
      exact ih seen hn d hd
    | some m =>
      by_cases hskip : (m = "" || seen.contains m) = true
      · simp only [initialize_seen, hname, if_pos hskip] at hd
        exact ih seen hn d hd
      · have hmn : m ≠ n := by
          intro hcon
          subst hcon
          rw [hn] at hskip
          simp at hskip
        have hseen : (m :: seen).contains n = true := by
          simp only [List.contains_cons, hn, Bool.or_true]
        by_cases hpy : c.provider = some "python"
        · simp only [initialize_seen, hname, if_neg hskip, if_pos hpy,
            List.mem_cons] at hd
          rcases hd with hd | hd
          · subst hd
            simp [hname, hmn]
          · exact ih (m :: seen) hseen d hd
        · simp only [initialize_seen, hname, if_neg hskip, if_neg hpy] at hd
          exact ih (m :: seen) hseen d hd

theorem initialize_seen_countP (cs : List Ctrl) (seen : List String)
    (n : String) :
    (initialize_seen cs seen).countP (fun c => decide (c.name = some n))
      ≤ 1 := by
  induction cs generalizing seen with
  | nil => simp [initialize_seen]
  | cons c rest ih =>
    cases hname : c.name with
    | none =>
      simp only [initialize_seen, hname]
      exact ih seen
    | some m =>
      by_cases hskip : (m = "" || seen.contains m) = true
      · simp only [initialize_seen, hname, if_pos hskip]
        exact ih seen
      · by_cases hpy : c.provider = some "python"
        · simp only [initialize_seen, hname, if_neg hskip, if_pos hpy]
          by_cases hmn : m = n
          · subst hmn
            have hzero :
                (initialize_seen rest (m :: seen)).countP
                  (fun c => decide (c.name = some m)) = 0 := by
              rw [List.countP_eq_zero]
              intro d hd
              have := initialize_seen_fresh rest (m :: seen) m
                (by simp) d hd
              simpa using this
            simp [List.countP_cons, hname, hzero]
          · have hfalse : (fun c => decide (c.name = some n)) c = false := by
              simp [hname, hmn]
            simp only [List.countP_cons, hfalse, if_false]
            simpa using ih (m :: seen)
        · simp only [initialize_seen, hname, if_neg hskip, if_neg hpy]
          exact ih (m :: seen)

theorem initialize_seen_first (cs : List Ctrl) (seen : List String) (c : Ctrl)
    (hc : c ∈ initialize_seen cs seen) :
    ∃ m, c.name = some m ∧ m ≠ "" ∧ seen.contains m = false ∧
      cs.find? (fun d => decide (d.name = some m)) = some c := by
  induction cs generalizing seen with
  | nil => simp [initialize_seen] at hc
  | cons d rest ih =>
    cases hname : d.name with
    | none =>
      simp only [initialize_seen, hname] at hc
      obtain ⟨m, h1, h2, h3, h4⟩ := ih seen hc
      refine ⟨m, h1, h2, h3, ?_⟩
      rw [List.find?_cons_of_neg, h4]
      simp [hname]
    | some md =>
      by_cases hskip : (md = "" || seen.contains md) = true
      · simp only [initialize_seen, hname, if_pos hskip] at hc
        obtain ⟨m, h1, h2, h3, h4⟩ := ih seen hc
        have hmd : md ≠ m := by
          rcases Bool.or_eq_true_iff.mp hskip with he | hs
          · intro hcon
            subst hcon
            exact h2 (by simpa using he)
          · intro hcon
            subst hcon
            rw [hs] at h3
            exact absurd h3 (by decide)
        refine ⟨m, h1, h2, h3, ?_⟩
        rw [List.find?_cons_of_neg, h4]
        simp [hname, hmd]
      · have hmd1 : md ≠ "" := by
          intro hcon
          exact hskip (by simp [hcon])
        have hmd2 : seen.contains md = false := by
          cases hcontains : seen.contains md with
          | false => rfl
          | true => exact absurd (by rw [hcontains]; simp) hskip
        by_cases hpy : d.provider = some "python"
        · simp only [initialize_seen, hname, if_neg hskip, if_pos hpy,
            List.mem_cons] at hc
          rcases hc with hc | hc
          · subst hc
            refine ⟨md, hname, hmd1, hmd2, ?_⟩
            rw [List.find?_cons_of_pos]
            simp [hname]
          · obtain ⟨m, h1, h2, h3, h4⟩ := ih (md :: seen) hc
            have hmd : md ≠ m := by
              intro hcon
              subst hcon
              simp at h3
            have h3x : ¬m = md ∧ m ∉ seen := by simpa using h3
            refine ⟨m, h1, h2, by simpa using h3x.2, ?_⟩
            rw [List.find?_cons_of_neg, h4]
            simp [hname, hmd]
        · simp only [initialize_seen, hname, if_neg hskip, if_neg hpy] at hc
          obtain ⟨m, h1, h2, h3, h4⟩ := ih (md :: seen) hc
          have hmd : md ≠ m := by
            intro hcon
            subst hcon
            simp at h3
          have h3x : ¬m = md ∧ m ∉ seen := by simpa using h3
          refine ⟨m, h1, h2, by simpa using h3x.2, ?_⟩
          rw [List.find?_cons_of_neg, h4]
          simp [hname, hmd]

/-- C8: however many times a control name is declared across the experiment
— top level, hypothesis, or any activity — `initialize_controls` performs at
most one provider initialization carrying that name and `cleanup_controls`
at most one provider cleanup, and every control whose provider is called is
the first declaration bearing its name in `get_controls` order. -/
theorem initialize_cleanup_once_per_name (e : Experiment) (n : String) :
    (initialize_controls e).countP (fun c => decide (c.name = some n)) ≤ 1 ∧
    (∀ c ∈ initialize_controls e, ∃ m, c.name = some m ∧
      (get_controls e).find? (fun d => decide (d.name = some m)) = some c) ∧
    (cleanup_controls e).countP (fun c => decide (c.name = some n)) ≤ 1 ∧
    (∀ c ∈ cleanup_controls e, ∃ m, c.name = some m ∧
      (get_controls e).find? (fun d => decide (d.name = some m)) = some c) := by
  have hcl : cleanup_controls e = initialize_controls e :=
    cleanup_seen_eq (get_controls e) []
  refine ⟨initialize_seen_countP (get_controls e) [] n, ?_, ?_, ?_⟩
  · intro c hc
    obtain ⟨m, h1, _, _, h4⟩ := initialize_seen_first (get_controls e) [] c hc
    exact ⟨m, h1, h4⟩
  · rw [hcl]
    exact initialize_seen_countP (get_controls e) [] n
  · rw [hcl]
    intro c hc
    obtain ⟨m, h1, _, _, h4⟩ := initialize_seen_first (get_controls e) [] c hc
    exact ⟨m, h1, h4⟩

/-- C8 witness: with the name `"n"` declared both top-level and on an
activity, only the first declaration's provider is initialized. -/
theorem initialize_cleanup_once_per_name_witness :
    initialize_controls expDupNames = [dupFirst] ∧
    (initialize_controls expDupNames).countP
      (fun c => decide (c.name = some "n")) ≤ 1 :=
  ⟨by decide, (initialize_cleanup_once_per_name expDupNames "n").1⟩

/-- C7 counterexample: in `expActivityRef` there are no top-level controls,
one activity declares the non-ref control named `"x"`, and another activity
control carries `ref: "x"`.  That ref resolves to no top-level control, yet
`validate_controls` does not raise `InvalidControl`: the validation collects
the names of the non-ref controls declared anywhere, not only top-level
ones. -/
theorem validate_controls_accepts_non_top_level_ref :
    validate_controls expActivityRef = ValidateOutcome.ok ∧
    expActivityRef.controls = [] ∧
    (∃ c ∈ get_controls expActivityRef, c.ref = some "x") := by
  refine ⟨rfl, rfl, ?_⟩
  decide

/-- C7 as amended: provided every non-ref declared control carries a name
(otherwise the reference collection raises `KeyError` first),
`validate_controls` raises `InvalidControl` exactly when some control
anywhere in the experiment carries a ref that is not the name of any
non-ref control declared anywhere — top level, hypothesis or activity — so
a ref resolvable only against a non-top-level declaration passes
validation even though `get_context_controls` will not resolve it at
runtime. -/
theorem validate_controls_invalid_iff (e : Experiment)
    (hnamed : ∀ c ∈ get_controls e, c.ref = none → c.name ≠ none) :
    validate_controls e = ValidateOutcome.invalidControl ↔
      ∃ c ∈ get_controls e, ∃ r, c.ref = some r ∧
        r ∉ ((get_controls e).filter
          (fun c => c.ref = none)).filterMap Ctrl.name := by
  have hkey : (get_controls e).any
      (fun c => c.ref = none && c.name = none) = false := by
    cases hk : (get_controls e).any (fun c => c.ref = none && c.name = none) with
    | false => rfl
    | true =>
      obtain ⟨c, hcmem, hp⟩ := List.any_eq_true.mp hk
      rw [Bool.and_eq_true, decide_eq_true_eq, decide_eq_true_eq] at hp
      exact absurd hp.2 (hnamed c hcmem hp.1)
  rw [validate_controls]
  simp only [hkey, Bool.false_eq_true, if_false]
  constructor
  · intro hval
    cases hany : (get_controls e).any (fun c =>
        match c.ref with
        | some r => !(((get_controls e).filter
            (fun c => c.ref = none)).filterMap Ctrl.name).contains r
        | none => false) with
    | false =>
      rw [hany] at hval
      simp at hval
    | true =>
      obtain ⟨c, hcmem, hp⟩ := List.any_eq_true.mp hany
      refine ⟨c, hcmem, ?_⟩
      cases hr : c.ref with
      | none => rw [hr] at hp; simp at hp
      | some r =>
        rw [hr] at hp
        simp only [Bool.not_eq_true'] at hp
        refine ⟨r, rfl, fun hmem => ?_⟩
        have hc2 : (((get_controls e).filter
            (fun c => c.ref = none)).filterMap Ctrl.name).contains r = true :=
          List.elem_iff.mpr hmem
        rw [hc2] at hp
        exact absurd hp (by decide)
  · intro ⟨c, hcmem, r, hr, hnot⟩
    have hp : (fun c =>
        match c.ref with
        | some r => !(((get_controls e).filter
            (fun c => c.ref = none)).filterMap Ctrl.name).contains r
        | none => false) c = true := by
      simp only [hr, Bool.not_eq_true']
      cases hcon : (((get_controls e).filter
          (fun c => c.ref = none)).filterMap Ctrl.name).contains r with
      | false => rfl
      | true => exact absurd (List.elem_iff.mp hcon) hnot
    have hany : (get_controls e).any (fun c =>
        match c.ref with
        | some r => !(((get_controls e).filter
            (fun c => c.ref = none)).filterMap Ctrl.name).contains r
        | none => false) = true :=
      List.any_eq_true.mpr ⟨c, hcmem, hp⟩
    rw [hany]
    simp

/-- C7 witness: a dangling ref, resolvable nowhere, is rejected with
`InvalidControl`. -/
theorem validate_controls_invalid_iff_witness :
    (∀ c ∈ get_controls expDanglingRef, c.ref = none → c.name ≠ none) ∧
    validate_controls expDanglingRef = ValidateOutcome.invalidControl :=
  ⟨by decide,
    (validate_controls_invalid_iff expDanglingRef (by decide)).mpr (by decide)⟩

end ChaosCtl
